import Mathlib

/-!
Verification of the core view-state logic of the PDF viewer control
(`src/PdfViewerControl/components/PdfViewer.tsx`).

The relevant functions of the component are embedded shallowly:
pure computations (`virtualWindow`, spacer sizing, `performSearch`, the
comparator-driven sort, rotation arithmetic, `goToPage` clamping) become
Lean functions over `Int`/`Nat`/`Rat`/`List Char`, the stateful render
and navigation lifecycles become explicit step functions on record
states, and the single-threaded interleaving of async continuations is
modelled as sequences of atomic events applied between await points.
JavaScript remainder on numbers is `Int.tmod`; `Array.prototype.sort`
with a consistent comparator is modelled by the (unique) stable sort for
that comparator, here realised as a stable insertion sort.
-/

namespace PdfViewer

/-- Configuration constants from the `CONFIG` object. -/
def VIRTUAL_SCROLL_THRESHOLD : Nat := 30

def VIRTUAL_SCROLL_BUFFER_BEFORE : Int := 5

def VIRTUAL_SCROLL_BUFFER_AFTER : Int := 8

def MIN_SCALE : ℚ := 1/4

def MAX_SCALE : ℚ := 5

/-- A page viewport as returned by the rasterization service at base scale. -/
structure Viewport where
  width : ℚ
  height : ℚ
deriving DecidableEq, Repr

/-- Result of the `virtualWindow` useMemo. -/
structure VirtualWindow where
  startPage : Int
  endPage : Int
  useVirtual : Bool
deriving DecidableEq, Repr

/-- Embedding of the `virtualWindow` useMemo: below or at the threshold all
pages are materialized, above it the window is current page minus the
before-buffer to current page plus the after-buffer, clamped to the
document. -/
def virtualWindow (totalPages : Nat) (currentPage : Int) : VirtualWindow :=
  if totalPages ≤ VIRTUAL_SCROLL_THRESHOLD then
    ⟨1, (totalPages : Int), false⟩
  else
    ⟨max 1 (currentPage - VIRTUAL_SCROLL_BUFFER_BEFORE),
     min (totalPages : Int) (currentPage + VIRTUAL_SCROLL_BUFFER_AFTER),
     true⟩

/-- Height of one page entry of the `pageHeights` useMemo: width and height
swap when the rotation is not a multiple of 180 degrees, scaled, plus the
20px margin. -/
def pageHeight (vp : Viewport) (scale : ℚ) (rotation : Int) : ℚ :=
  (if rotation.tmod 180 ≠ 0 then vp.width else vp.height) * scale + 20

/-- Embedding of the `pageHeights` useMemo. -/
def pageHeights (vps : List Viewport) (scale : ℚ) (rotation : Int) : List ℚ :=
  vps.map (fun vp => pageHeight vp scale rotation)

/-- The loop body of the spacer-height useMemo: page number `k` is the
number of the first list element, heights of pages before the window start
go to the top spacer, heights of pages after the window end go to the
bottom spacer. -/
def spacerLoop (s e : Int) (k : Int) : List ℚ → ℚ × ℚ
  | [] => (0, 0)
  | h :: t =>
    let rest := spacerLoop s e (k + 1) t
    if k < s then (rest.1 + h, rest.2)
    else if k > e then (rest.1, rest.2 + h)
    else rest

/-- Embedding of the `topSpacerHeight`/`bottomSpacerHeight` useMemo. -/
def spacerHeights (w : VirtualWindow) (hs : List ℚ) : ℚ × ℚ :=
  if w.useVirtual = false then (0, 0)
  else spacerLoop w.startPage w.endPage 1 hs

/-- Sum of the heights of the pages (numbered from `k`) satisfying a
predicate on the page number; used to state what the spacer loop computes. -/
def sumIf (p : Int → Prop) [DecidablePred p] (k : Int) : List ℚ → ℚ
  | [] => 0
  | h :: t => (if p k then h else 0) + sumIf p (k + 1) t

/-- Navigation-related state of the parent component: the tracked current
page, the `isNavigatingRef` flag, the `pendingScrollRef` target, and the
trace of pages emitted through `onPageChange` by the visibility debounce. -/
structure NavState where
  currentPage : Int
  isNavigating : Bool
  pendingScroll : Option Int
  emitted : List Int
deriving DecidableEq, Repr

/-- Embedding of `goToPage`: clamp the argument to the document, raise the
navigation flag, record the pending scroll target, set the current page. -/
def goToPage (totalPages : Nat) (page : Int) (s : NavState) : NavState :=
  let targetPage := max 1 (min (totalPages : Int) page)
  { s with
    isNavigating := true
    pendingScroll := some targetPage
    currentPage := targetPage }

/-- The most-visible-page scan of the debounced visibility callback:
fold over the visibility records keeping the page with the strictly
largest ratio, starting from page 1 with ratio 0. -/
def mostVisiblePage (visible : List (Int × ℚ)) : Int :=
  (visible.foldl (fun acc rec => if rec.2 > acc.2 then rec else acc) (1, 0)).1

/-- The debounced current-page recomputation: a no-op while the navigation
flag is up; otherwise emit the most visible page when something is visible
and it differs from the tracked current page. -/
def debounceStep (visible : List (Int × ℚ)) (s : NavState) : NavState :=
  if s.isNavigating then s
  else
    let mv := mostVisiblePage visible
    if 0 < visible.length ∧ mv ≠ s.currentPage then
      { s with currentPage := mv, emitted := s.emitted ++ [mv] }
    else s

/-- The pending-scroll effect body: performs the programmatic scroll and
clears the pending target (the navigation flag is cleared separately,
100ms later). -/
def scrollStep (s : NavState) : NavState :=
  { s with pendingScroll := none }

/-- The settle timeout body: clears the navigation flag. -/
def clearFlagStep (s : NavState) : NavState :=
  { s with isNavigating := false }

/-- Events that can occur while a navigation is in flight. -/
inductive NavEvent where
  | debounceFire (visible : List (Int × ℚ))
  | scrollEffect
  | clearFlag
deriving DecidableEq, Repr

/-- Apply one navigation-window event. -/
def navStep (e : NavEvent) (s : NavState) : NavState :=
  match e with
  | NavEvent.debounceFire visible => debounceStep visible s
  | NavEvent.scrollEffect => scrollStep s
  | NavEvent.clearFlag => clearFlagStep s

/-- Apply a sequence of navigation-window events in order. -/
def navSteps (es : List NavEvent) (s : NavState) : NavState :=
  match es with
  | [] => s
  | e :: rest => navSteps rest (navStep e s)

/-- Embedding of `rotateLeft` on the rotation value. -/
def rotateLeftVal (r : Int) : Int :=
  (r - 90 + 360).tmod 360

/-- Embedding of `rotateRight` on the rotation value. -/
def rotateRightVal (r : Int) : Int :=
  (r + 90).tmod 360

/-- One rotation operation. -/
inductive RotOp where
  | left
  | right
deriving DecidableEq, Repr

/-- Apply one rotation operation to the rotation value. -/
def applyRot (op : RotOp) (r : Int) : Int :=
  match op with
  | RotOp.left => rotateLeftVal r
  | RotOp.right => rotateRightVal r

/-- Apply a sequence of rotation operations. -/
def applyRots (ops : List RotOp) (r : Int) : Int :=
  match ops with
  | [] => r
  | op :: rest => applyRots rest (applyRot op r)

/-- The set of rotation values reachable from 0. -/
def RotVals (r : Int) : Prop :=
  r = 0 ∨ r = 90 ∨ r = 180 ∨ r = 270

instance : DecidablePred RotVals := fun r => by
  unfold RotVals
  infer_instance

/-- One search match as produced by `performSearch`. -/
structure SearchMatch where
  pageNum : Nat
  itemIndex : Nat
  startOffset : Nat
  length : Nat
deriving DecidableEq, Repr

/-- The extracted text of the document: page number mapped to the ordered
list of its text fragments, in map-insertion order. -/
def TextMap : Type := List (Nat × List (List Char))

instance : DecidableEq TextMap := by
  unfold TextMap
  infer_instance

/-- Embedding of `toLowerCase` as character-wise lowering. -/
def lowerStr (s : List Char) : List Char :=
  s.map Char.toLower

/-- The scan underlying `indexOf(needle, i)`: try successive offsets until
the fuel runs out, returning the first offset where the needle occurs. -/
def idxScan (needle hay : List Char) : Nat → Nat → Option Nat
  | _, 0 => none
  | i, fuel + 1 =>
    if needle.isPrefixOf (hay.drop i) then some i
    else idxScan needle hay (i + 1) fuel

/-- Embedding of `itemLower.indexOf(searchLower, startIndex)`: the first
occurrence offset at or after `start`, if any. -/
def indexOfFrom (needle hay : List Char) (start : Nat) : Option Nat :=
  idxScan needle hay start (hay.length + 1 - start)

/-- The `while (true)` occurrence loop of `performSearch`: collect found
offsets, resuming each time one character past the found offset. -/
def findAllFrom (needle hay : List Char) : Nat → Nat → List Nat
  | _, 0 => []
  | start, fuel + 1 =>
    match indexOfFrom needle hay start with
    | none => []
    | some i => i :: findAllFrom needle hay (i + 1) fuel

/-- All occurrence offsets recorded for one fragment, starting the scan at
offset 0. -/
def findAll (needle hay : List Char) : List Nat :=
  findAllFrom needle hay 0 (hay.length + 1)

/-- The matches pushed for one text item. -/
def matchesOfItem (ql : List Char) (qlen pageNum itemIndex : Nat)
    (item : List Char) : List SearchMatch :=
  (findAll ql (lowerStr item)).map
    (fun off => ⟨pageNum, itemIndex, off, qlen⟩)

/-- The matches pushed by the `content.items.forEach` loop, with `i` the
index of the first item of the remaining list. -/
def matchesOfItems (ql : List Char) (qlen pageNum : Nat) :
    Nat → List (List Char) → List SearchMatch
  | _, [] => []
  | i, item :: rest =>
    matchesOfItem ql qlen pageNum i item ++
      matchesOfItems ql qlen pageNum (i + 1) rest

/-- The matches pushed by the `textContent.forEach` loop, in map-insertion
order before sorting. -/
def collectMatches (ql : List Char) (qlen : Nat) :
    List (Nat × List (List Char)) → List SearchMatch
  | [] => []
  | (p, items) :: rest =>
    matchesOfItems ql qlen p 0 items ++ collectMatches ql qlen rest

/-- The sort comparator of `performSearch` as a boolean less-or-equal:
page number ascending, then item index ascending; offsets do not take part
in the comparison. -/
def matchLe (a b : SearchMatch) : Bool :=
  decide (a.pageNum < b.pageNum) ||
    (decide (a.pageNum = b.pageNum) && decide (a.itemIndex ≤ b.itemIndex))

/-- Stable insertion with respect to `matchLe`: the new element goes in
front of the first old element it compares less-or-equal to; equal-key
elements that were pushed earlier stay earlier. -/
def insertMatch (x : SearchMatch) : List SearchMatch → List SearchMatch
  | [] => [x]
  | y :: ys => if matchLe x y then x :: y :: ys else y :: insertMatch x ys

/-- `Array.prototype.sort` with the comparator above: modelled by the
unique stable sort for the comparator, realised as insertion sort. -/
def sortMatches : List SearchMatch → List SearchMatch
  | [] => []
  | x :: xs => insertMatch x (sortMatches xs)

/-- Embedding of `performSearch` up to the produced match list: empty
queries produce no matches, otherwise the collected occurrence matches are
sorted by the comparator. -/
def performSearchMatches (q : List Char)
    (tc : List (Nat × List (List Char))) : List SearchMatch :=
  if q.length < 1 then []
  else sortMatches (collectMatches (lowerStr q) q.length tc)

/-- The ordering the match list is claimed to satisfy: page ascending,
then item index ascending, then start offset ascending. -/
def matchOrdered (a b : SearchMatch) : Prop :=
  a.pageNum < b.pageNum ∨
    (a.pageNum = b.pageNum ∧
      (a.itemIndex < b.itemIndex ∨
        (a.itemIndex = b.itemIndex ∧ a.startOffset ≤ b.startOffset)))

instance : ∀ a b, Decidable (matchOrdered a b) := fun a b => by
  unfold matchOrdered
  infer_instance

/-- The per-fragment weak ordering satisfied by the unsorted pushed list:
two matches of the same page and item were pushed with ascending offsets. -/
def matchPushOrder (a b : SearchMatch) : Prop :=
  a.pageNum = b.pageNum → a.itemIndex = b.itemIndex →
    a.startOffset ≤ b.startOffset

/-- A match is a genuine occurrence: correct length, its page is mapped in
the text map, its item index denotes a fragment of that page, and the
lowered query occurs in the lowered fragment at the start offset. -/
def isOccurrence (q : List Char) (tc : List (Nat × List (List Char)))
    (m : SearchMatch) : Prop :=
  m.length = q.length ∧
    ∃ items, (m.pageNum, items) ∈ tc ∧
      ∃ item, items.get? m.itemIndex = some item ∧
        (lowerStr q).isPrefixOf ((lowerStr item).drop m.startOffset) = true

/-- Two matches overlap when they lie in the same fragment and their
half-open offset intervals intersect. -/
def overlaps (m1 m2 : SearchMatch) : Prop :=
  m1.pageNum = m2.pageNum ∧ m1.itemIndex = m2.itemIndex ∧
    m1.startOffset < m2.startOffset + m2.length ∧
    m2.startOffset < m1.startOffset + m1.length

instance : ∀ a b, Decidable (overlaps a b) := fun a b => by
  unfold overlaps
  infer_instance

/-- Search-navigation state: the match list and the current match index. -/
structure SearchState where
  searchMatches : List SearchMatch
  currentMatchIndex : Int
deriving DecidableEq, Repr

/-- Embedding of a committed `performSearch` call on the search state. -/
def performSearchStep (q : List Char)
    (tc : List (Nat × List (List Char))) (s : SearchState) : SearchState :=
  if q.length < 1 then ⟨[], -1⟩
  else
    let ms := performSearchMatches q tc
    ⟨ms, if 0 < ms.length then 0 else -1⟩

/-- Embedding of `searchNext`. -/
def searchNextStep (s : SearchState) : SearchState :=
  if s.searchMatches.length = 0 then s
  else
    { s with currentMatchIndex :=
        (s.currentMatchIndex + 1).tmod (s.searchMatches.length : Int) }

/-- Embedding of `searchPrev`. -/
def searchPrevStep (s : SearchState) : SearchState :=
  if s.searchMatches.length = 0 then s
  else
    let n : Int := (s.searchMatches.length : Int)
    { s with currentMatchIndex := (s.currentMatchIndex - 1 + n).tmod n }

/-- One search or match-navigation operation. -/
inductive SearchOp where
  | commit (q : List Char) (tc : List (Nat × List (List Char)))
  | next
  | prev

/-- Apply one search operation. -/
def applySearchOp (op : SearchOp) (s : SearchState) : SearchState :=
  match op with
  | SearchOp.commit q tc => performSearchStep q tc s
  | SearchOp.next => searchNextStep s
  | SearchOp.prev => searchPrevStep s

/-- Apply a sequence of search operations. -/
def applySearchOps (ops : List SearchOp) (s : SearchState) : SearchState :=
  match ops with
  | [] => s
  | op :: rest => applySearchOps rest (applySearchOp op s)

/-- The current-match-index invariant: -1 exactly on an empty match list,
otherwise a valid index into the match list. -/
def SearchInv (s : SearchState) : Prop :=
  (s.searchMatches.length = 0 → s.currentMatchIndex = -1) ∧
    (0 < s.searchMatches.length →
      0 ≤ s.currentMatchIndex ∧
        s.currentMatchIndex < (s.searchMatches.length : Int))

instance : ∀ s, Decidable (SearchInv s) := fun s => by
  unfold SearchInv
  infer_instance

/-- Render state of one page as stored in the `renderedPages` map. -/
inductive RState where
  | rendering
  | done
deriving DecidableEq, Repr

/-- Set a key in an association list, as `Map.prototype.set` does. -/
def setAssoc {α : Type} (k : Nat) (v : α) :
    List (Nat × α) → List (Nat × α)
  | [] => [(k, v)]
  | (k2, v2) :: rest =>
    if k = k2 then (k, v) :: rest else (k2, v2) :: setAssoc k v rest

/-- Delete a key from an association list, as `Map.prototype.delete` does. -/
def eraseAssoc {α : Type} (k : Nat) :
    List (Nat × α) → List (Nat × α)
  | [] => []
  | (k2, v2) :: rest =>
    if k = k2 then rest else (k2, v2) :: eraseAssoc k rest

/-- Look a key up in an association list, as `Map.prototype.get` does. -/
def lookupAssoc {α : Type} (k : Nat) : List (Nat × α) → Option α
  | [] => none
  | (k2, v2) :: rest => if k = k2 then some v2 else lookupAssoc k rest

/-- Insert a number into a set represented as a list, as `Set.prototype.add`
does. -/
def insertSet (p : Nat) (s : List Nat) : List Nat :=
  if p ∈ s then s else p :: s

/-- The combined render-lifecycle state: the parent component state
(`renderedPages`, `textContent`, scale, rotation, fit mode) together with
the canvas-local refs (`renderingPagesRef`, `everRenderedRef`). -/
structure ViewerState where
  renderingSet : List Nat
  renderedPages : List (Nat × RState)
  textContent : List (Nat × List (List Char))
  everRendered : List Nat
  scale : ℚ
  rotation : Int
  fitMode : Option (List Char)
deriving DecidableEq, Repr

/-- Entry of `renderPage` up to the first await: bail out when the page is
already in the rendering set, otherwise add it to the rendering set and
mark it `rendering` in the rendered-pages map. -/
def startRender (p : Nat) (s : ViewerState) : ViewerState :=
  if p ∈ s.renderingSet then s
  else
    { s with
      renderingSet := insertSet p s.renderingSet
      renderedPages := setAssoc p RState.rendering s.renderedPages }

/-- The successful tail of `renderPage`: publish the extracted text, mark
the page `done`, record it ever-rendered, and drop it from the rendering
set in the `finally` block. -/
def completeRender (p : Nat) (txt : List (List Char)) (s : ViewerState) :
    ViewerState :=
  { s with
    textContent := setAssoc p txt s.textContent
    renderedPages := setAssoc p RState.done s.renderedPages
    everRendered := insertSet p s.everRendered
    renderingSet := s.renderingSet.filter (fun q => q ≠ p) }

/-- The `catch` branch of `renderPage` for a rendering-cancelled error plus
the `finally` block: the page leaves the rendering set only; the
rendered-pages map is not touched. -/
def cancelObserved (p : Nat) (s : ViewerState) : ViewerState :=
  { s with renderingSet := s.renderingSet.filter (fun q => q ≠ p) }

/-- The `catch` branch of `renderPage` for a genuine failure plus the
`finally` block: the page is deleted from the rendered-pages map and
leaves the rendering set. -/
def failObserved (p : Nat) (s : ViewerState) : ViewerState :=
  { s with
    renderedPages := eraseAssoc p s.renderedPages
    renderingSet := s.renderingSet.filter (fun q => q ≠ p) }

/-- The body of the periodic stale-task sweep for one timed-out page: the
task is cancelled and the page is dropped from the rendering set (and the
task bookkeeping maps); the rendered-pages map is not touched. -/
def timeoutReap (p : Nat) (s : ViewerState) : ViewerState :=
  { s with renderingSet := s.renderingSet.filter (fun q => q ≠ p) }

/-- The intersecting branch of `handlePageVisible` restricted to its render
trigger: a render starts only when the page is in neither the
rendered-pages map nor the rendering set. -/
def visibleTrigger (p : Nat) (s : ViewerState) : ViewerState :=
  if lookupAssoc p s.renderedPages = none ∧ p ∉ s.renderingSet then
    startRender p s
  else s

/-- Embedding of `applyZoom` together with the canvas cleanup effect that
runs on a scale change: the scale is clamped to [MIN_SCALE, MAX_SCALE],
the fit mode is stored, the rendered-pages map and the text content are
reset, and the in-flight tasks are cancelled (clearing the rendering
set). `everRenderedRef` is not touched. -/
def applyZoomStep (z : ℚ) (mode : Option (List Char)) (s : ViewerState) :
    ViewerState :=
  { s with
    scale := max MIN_SCALE (min MAX_SCALE z)
    fitMode := mode
    renderedPages := []
    textContent := []
    renderingSet := [] }

/-- Embedding of `rotateLeft` together with the cleanup effect on a
rotation change. -/
def rotateLeftStep (s : ViewerState) : ViewerState :=
  { s with
    rotation := rotateLeftVal s.rotation
    renderedPages := []
    textContent := []
    renderingSet := [] }

/-- Embedding of `rotateRight` together with the cleanup effect on a
rotation change. -/
def rotateRightStep (s : ViewerState) : ViewerState :=
  { s with
    rotation := rotateRightVal s.rotation
    renderedPages := []
    textContent := []
    renderingSet := [] }

/-- One atomic event of the render lifecycle, as interleaved on the single
UI thread between await points. -/
inductive RenderEvent where
  | start (p : Nat)
  | complete (p : Nat) (txt : List (List Char))
  | cancelled (p : Nat)
  | failed (p : Nat)
  | reap (p : Nat)
  | visible (p : Nat)
  | zoom (z : ℚ) (mode : Option (List Char))
  | rotL
  | rotR

/-- Apply one render-lifecycle event. -/
def renderStep (e : RenderEvent) (s : ViewerState) : ViewerState :=
  match e with
  | RenderEvent.start p => startRender p s
  | RenderEvent.complete p txt => completeRender p txt s
  | RenderEvent.cancelled p => cancelObserved p s
  | RenderEvent.failed p => failObserved p s
  | RenderEvent.reap p => timeoutReap p s
  | RenderEvent.visible p => visibleTrigger p s
  | RenderEvent.zoom z mode => applyZoomStep z mode s
  | RenderEvent.rotL => rotateLeftStep s
  | RenderEvent.rotR => rotateRightStep s

/-- Apply a sequence of render-lifecycle events. -/
def renderSteps (es : List RenderEvent) (s : ViewerState) : ViewerState :=
  match es with
  | [] => s
  | e :: rest => renderSteps rest (renderStep e s)

/-- The empty viewer state. -/
def initialViewerState : ViewerState :=
  ⟨[], [], [], [], 1, 0, none⟩

end PdfViewer

namespace PdfViewer

/-- C5: below the 30-page threshold the virtual window is inactive and
covers all pages; above it the window is active and equals
[max(1, currentPage - 5), min(totalPages, currentPage + 8)]; whenever the
window is active and the current page is in range, the window contains the
current page. -/
theorem virtualWindow_spec :
    ∀ (tp : Nat) (cp : Int),
      (tp < VIRTUAL_SCROLL_THRESHOLD →
        virtualWindow tp cp = ⟨1, (tp : Int), false⟩) ∧
      (VIRTUAL_SCROLL_THRESHOLD < tp →
        virtualWindow tp cp =
          ⟨max 1 (cp - 5), min (tp : Int) (cp + 8), true⟩) ∧
      (VIRTUAL_SCROLL_THRESHOLD < tp → 1 ≤ cp → cp ≤ (tp : Int) →
        (virtualWindow tp cp).useVirtual = true ∧
        (virtualWindow tp cp).startPage ≤ cp ∧
        cp ≤ (virtualWindow tp cp).endPage) := by
  intro tp cp
  unfold virtualWindow VIRTUAL_SCROLL_THRESHOLD
  unfold VIRTUAL_SCROLL_BUFFER_BEFORE VIRTUAL_SCROLL_BUFFER_AFTER
  refine ⟨?_, ?_, ?_⟩
  · intro h
    rw [if_pos (by omega)]
  · intro h
    rw [if_neg (by omega)]
  · intro h h1 h2
    rw [if_neg (by omega)]
    refine ⟨rfl, ?_, ?_⟩
    · simp only
      omega
    · simp only
      omega

/-- C5 witness: the spec example, 200 pages at current page 100 gives the
active window [95, 108]. -/
theorem virtualWindow_spec_witness :
    virtualWindow 200 100 = ⟨95, 108, true⟩ ∧
    (virtualWindow 200 100).startPage ≤ 100 ∧
    100 ≤ (virtualWindow 200 100).endPage := by
  refine ⟨?_, ?_⟩
  · have h := (virtualWindow_spec 200 100).2.1 (by decide)
    simpa using h
  · exact ((virtualWindow_spec 200 100).2.2 (by decide) (by decide)
      (by decide)).2

/-- Helper: the spacer loop computes the sum of heights of pages before the
window start in its first component and the sum of heights of pages at or
after the window start but after the window end in its second component. -/
theorem spacerLoop_eq (s e : Int) :
    ∀ (l : List ℚ) (k : Int),
      spacerLoop s e k l =
        (sumIf (fun p => p < s) k l,
         sumIf (fun p => ¬ p < s ∧ e < p) k l) := by
  intro l
  induction l with
  | nil => intro k; rfl
  | cons h t ih =>
    intro k
    simp only [spacerLoop, sumIf, ih (k + 1)]
    by_cases h1 : k < s
    · rw [if_pos h1, if_pos h1, if_neg (by tauto)]
      exact Prod.ext (by ring) (by ring)
    · rw [if_neg h1, if_neg h1]
      by_cases h2 : e < k
      · rw [if_pos h2, if_pos (by tauto)]
        exact Prod.ext (by ring) (by ring)
      · rw [if_neg h2, if_neg (by tauto)]
        exact Prod.ext (by ring) (by ring)

/-- Helper: `sumIf` only depends on the predicate values inside the index
range covered by the list. -/
theorem sumIf_congr (p q : Int → Prop) [DecidablePred p] [DecidablePred q] :
    ∀ (l : List ℚ) (k : Int),
      (∀ j, k ≤ j → j < k + l.length → (p j ↔ q j)) →
      sumIf p k l = sumIf q k l := by
  intro l
  induction l with
  | nil => intro k _; rfl
  | cons h t ih =>
    intro k hpq
    simp only [sumIf]
    have hk : p k ↔ q k := hpq k le_rfl
      (by simp only [List.length_cons]; push_cast; omega)
    have ht : sumIf p (k + 1) t = sumIf q (k + 1) t := by
      refine ih (k + 1) ?_
      intro j hj1 hj2
      refine hpq j (by omega) ?_
      simp only [List.length_cons]
      push_cast at hj2 ⊢
      omega
    rw [ht]
    by_cases hp : p k
    · rw [if_pos hp, if_pos (hk.mp hp)]
    · rw [if_neg hp, if_neg (fun hq => hp (hk.mpr hq))]

/-- Helper: when the three predicates partition every index in the covered
range, the three partial sums add up to the total sum. -/
theorem sumIf_partition (p1 p2 p3 : Int → Prop)
    [DecidablePred p1] [DecidablePred p2] [DecidablePred p3] :
    ∀ (l : List ℚ) (k : Int),
      (∀ j, k ≤ j → j < k + l.length →
        ((p1 j ∧ ¬ p2 j ∧ ¬ p3 j) ∨ (¬ p1 j ∧ p2 j ∧ ¬ p3 j) ∨
         (¬ p1 j ∧ ¬ p2 j ∧ p3 j))) →
      sumIf p1 k l + sumIf p2 k l + sumIf p3 k l = l.sum := by
  intro l
  induction l with
  | nil => intro k _; simp [sumIf]
  | cons h t ih =>
    intro k hpart
    simp only [sumIf, List.sum_cons]
    have ht : sumIf p1 (k + 1) t + sumIf p2 (k + 1) t + sumIf p3 (k + 1) t
        = t.sum := by
      refine ih (k + 1) ?_
      intro j hj1 hj2
      refine hpart j (by omega) ?_
      simp only [List.length_cons]
      push_cast at hj2 ⊢
      omega
    have hk := hpart k le_rfl
      (by simp only [List.length_cons]; push_cast; omega)
    rcases hk with ⟨h1, h2, h3⟩ | ⟨h1, h2, h3⟩ | ⟨h1, h2, h3⟩
    · rw [if_pos h1, if_neg h2, if_neg h3]
      linarith
    · rw [if_neg h1, if_pos h2, if_neg h3]
      linarith
    · rw [if_neg h1, if_neg h2, if_pos h3]
      linarith

/-- C6: when the window is inactive both spacers are 0; when active the
top spacer is the sum of the (scale- and rotation-adjusted) heights of the
pages before the window start, the bottom spacer is the sum of the heights
of the pages after the window end, and top spacer plus materialized heights
plus bottom spacer equals the total height of all pages; a page's height
swaps width and height exactly at rotations not divisible by 180. -/
theorem spacer_spec :
    ∀ (vps : List Viewport) (scale : ℚ) (rot : Int) (cp : Int),
      (let w := virtualWindow vps.length cp
       let hs := pageHeights vps scale rot
       (w.useVirtual = false → spacerHeights w hs = (0, 0)) ∧
       (w.useVirtual = true →
         (spacerHeights w hs).1 = sumIf (fun p => p < w.startPage) 1 hs ∧
         (spacerHeights w hs).2 = sumIf (fun p => w.endPage < p) 1 hs ∧
         (spacerHeights w hs).1 +
           sumIf (fun p => w.startPage ≤ p ∧ p ≤ w.endPage) 1 hs +
           (spacerHeights w hs).2 = hs.sum)) ∧
      (∀ vp, (rot = 90 ∨ rot = 270) →
        pageHeight vp scale rot = vp.width * scale + 20) ∧
      (∀ vp, (rot = 0 ∨ rot = 180) →
        pageHeight vp scale rot = vp.height * scale + 20) := by
  intro vps scale rot cp
  refine ⟨⟨?_, ?_⟩, ?_, ?_⟩
  · intro hinact
    simp only [spacerHeights, hinact, if_pos]
  · intro hact
    have htp : ¬ vps.length ≤ VIRTUAL_SCROLL_THRESHOLD := by
      intro hle
      simp [virtualWindow, hle] at hact
    have hw : virtualWindow vps.length cp =
        ⟨max 1 (cp - 5), min (vps.length : Int) (cp + 8), true⟩ := by
      simp [virtualWindow, htp, VIRTUAL_SCROLL_BUFFER_BEFORE,
        VIRTUAL_SCROLL_BUFFER_AFTER]
    rw [hw]
    simp only [spacerHeights, Bool.true_eq_false, if_neg (by decide :
      ¬ (true = false))]
    set s := max 1 (cp - 5) with hs_def
    set e := min (vps.length : Int) (cp + 8) with he_def
    have hlen : (pageHeights vps scale rot).length = vps.length := by
      simp [pageHeights]
    rw [spacerLoop_eq]
    refine ⟨rfl, ?_, ?_⟩
    · refine sumIf_congr _ _ (pageHeights vps scale rot) 1 ?_
      intro j hj1 hj2
      rw [hlen] at hj2
      constructor
      · intro hj; exact hj.2
      · intro hj
        refine ⟨?_, hj⟩
        simp only [hs_def, he_def] at hj ⊢
        omega
    · have hbot : sumIf (fun p => ¬ p < s ∧ e < p) 1
          (pageHeights vps scale rot) =
          sumIf (fun p => e < p) 1 (pageHeights vps scale rot) := by
        refine sumIf_congr _ _ (pageHeights vps scale rot) 1 ?_
        intro j hj1 hj2
        rw [hlen] at hj2
        constructor
        · intro hj; exact hj.2
        · intro hj
          refine ⟨?_, hj⟩
          simp only [hs_def, he_def] at hj ⊢
          omega
      simp only [hbot]
      refine sumIf_partition _ _ _ (pageHeights vps scale rot) 1 ?_
      intro j hj1 hj2
      rw [hlen] at hj2
      simp only [hs_def, he_def] at *
      omega
  · intro vp hrot
    rcases hrot with h | h <;> subst h <;>
      · unfold pageHeight
        rw [if_pos (by decide)]
  · intro vp hrot
    rcases hrot with h | h <;> subst h <;>
      · unfold pageHeight
        rw [if_neg (by decide)]

/-- C6 witness: a 35-page document of unit pages at scale 1, rotation 0,
current page 20: window [15, 28], top spacer covers 14 pages, bottom
spacer 7 pages, and the decomposition adds up. -/
theorem spacer_spec_witness :
    (let w := virtualWindow (List.replicate 35 (⟨1, 2⟩ : Viewport)).length 20
     let hs := pageHeights (List.replicate 35 ⟨1, 2⟩) 1 0
     (w.useVirtual = false → spacerHeights w hs = (0, 0)) ∧
     (w.useVirtual = true →
       (spacerHeights w hs).1 = sumIf (fun p => p < w.startPage) 1 hs ∧
       (spacerHeights w hs).2 = sumIf (fun p => w.endPage < p) 1 hs ∧
       (spacerHeights w hs).1 +
         sumIf (fun p => w.startPage ≤ p ∧ p ≤ w.endPage) 1 hs +
         (spacerHeights w hs).2 = hs.sum)) ∧
    (∀ vp, ((0 : Int) = 90 ∨ (0 : Int) = 270) →
      pageHeight vp 1 0 = vp.width * 1 + 20) ∧
    (∀ vp, ((0 : Int) = 0 ∨ (0 : Int) = 180) →
      pageHeight vp 1 0 = vp.height * 1 + 20) :=
  spacer_spec (List.replicate 35 ⟨1, 2⟩) 1 0 20

/-- C7: `goToPage` clamps its argument to [1, totalPages], sets the current
page to the clamped value immediately, and raises the navigation request
(flag plus pending scroll target) for that value. -/
theorem goToPage_spec :
    ∀ (tp : Nat) (page : Int) (s : NavState), 1 ≤ tp →
      (goToPage tp page s).currentPage = max 1 (min (tp : Int) page) ∧
      1 ≤ (goToPage tp page s).currentPage ∧
      (goToPage tp page s).currentPage ≤ (tp : Int) ∧
      (goToPage tp page s).isNavigating = true ∧
      (goToPage tp page s).pendingScroll =
        some (goToPage tp page s).currentPage := by
  intro tp page s htp
  unfold goToPage
  refine ⟨rfl, by simp only; omega, by simp only; omega, rfl, rfl⟩

/-- C7 witness: a wildly out-of-range argument lands on the last page of a
10-page document with the navigation request set. -/
theorem goToPage_spec_witness :
    (goToPage 10 999 ⟨1, false, none, []⟩).currentPage = max 1 (min 10 999) ∧
    1 ≤ (goToPage 10 999 ⟨1, false, none, []⟩).currentPage ∧
    (goToPage 10 999 ⟨1, false, none, []⟩).currentPage ≤ 10 ∧
    (goToPage 10 999 ⟨1, false, none, []⟩).isNavigating = true ∧
    (goToPage 10 999 ⟨1, false, none, []⟩).pendingScroll =
      some (goToPage 10 999 ⟨1, false, none, []⟩).currentPage :=
  goToPage_spec 10 999 ⟨1, false, none, []⟩ (by decide)

/-- Helper: while the navigation flag is up, any sequence of debounce
firings and scroll effects leaves the current page, the flag and the
emitted-page trace unchanged. -/
theorem navSteps_frozen :
    ∀ (evs : List NavEvent) (s : NavState),
      s.isNavigating = true → (∀ e ∈ evs, e ≠ NavEvent.clearFlag) →
      (navSteps evs s).currentPage = s.currentPage ∧
      (navSteps evs s).isNavigating = true ∧
      (navSteps evs s).emitted = s.emitted := by
  intro evs
  induction evs with
  | nil => intro s hs _; exact ⟨rfl, hs, rfl⟩
  | cons e rest ih =>
    intro s hs hnc
    have he : e ≠ NavEvent.clearFlag := hnc e (List.mem_cons_self e rest)
    have hrest : ∀ x ∈ rest, x ≠ NavEvent.clearFlag := by
      intro x hx
      exact hnc x (List.mem_cons_of_mem e hx)
    have hstep : (navStep e s).currentPage = s.currentPage ∧
        (navStep e s).isNavigating = true ∧
        (navStep e s).emitted = s.emitted := by
      cases e with
      | debounceFire visible =>
        have hid : navStep (NavEvent.debounceFire visible) s = s := by
          simp [navStep, debounceStep, hs]
        rw [hid]
        exact ⟨rfl, hs, rfl⟩
      | scrollEffect => exact ⟨rfl, hs, rfl⟩
      | clearFlag => exact absurd rfl he
    have := ih (navStep e s) hstep.2.1 hrest
    simp only [navSteps]
    rw [this.1, this.2.2, hstep.1, hstep.2.2]
    exact ⟨rfl, this.2.1, rfl⟩

/-- C2: for an in-range target, from the `goToPage` call until the flag is
cleared, every debounce callback and the scroll effect leave the current
page at the target and emit no page change; clearing the flag afterwards
settles with the current page still equal to the target. -/
theorem navigation_race_spec :
    ∀ (tp : Nat) (t : Int) (s : NavState) (evs : List NavEvent),
      1 ≤ t → t ≤ (tp : Int) →
      (∀ e ∈ evs, e ≠ NavEvent.clearFlag) →
      (navSteps evs (goToPage tp t s)).currentPage = t ∧
      (navSteps evs (goToPage tp t s)).isNavigating = true ∧
      (navSteps evs (goToPage tp t s)).emitted = s.emitted ∧
      (clearFlagStep (navSteps evs (goToPage tp t s))).currentPage = t ∧
      (clearFlagStep (navSteps evs (goToPage tp t s))).isNavigating
        = false := by
  intro tp t s evs ht1 ht2 hnc
  have hstart : (goToPage tp t s).currentPage = t ∧
      (goToPage tp t s).isNavigating = true ∧
      (goToPage tp t s).emitted = s.emitted := by
    unfold goToPage
    refine ⟨?_, rfl, rfl⟩
    simp only
    omega
  have h := navSteps_frozen evs (goToPage tp t s) hstart.2.1 hnc
  rw [hstart.1] at h
  rw [hstart.2.2] at h
  exact ⟨h.1, h.2.1, h.2.2, h.1, rfl⟩

/-- C2 witness: a navigation to page 3 of 10 with two debounce firings
(one reporting page 5 as most visible, one page 7) and the scroll effect
in between leaves the current page at 3, emits nothing, and settles at 3. -/
theorem navigation_race_spec_witness :
    (navSteps
        [NavEvent.debounceFire [(5, 9/10)], NavEvent.scrollEffect,
         NavEvent.debounceFire [(7, 1)]]
        (goToPage 10 3 ⟨1, false, none, []⟩)).currentPage = 3 ∧
    (navSteps
        [NavEvent.debounceFire [(5, 9/10)], NavEvent.scrollEffect,
         NavEvent.debounceFire [(7, 1)]]
        (goToPage 10 3 ⟨1, false, none, []⟩)).isNavigating = true ∧
    (navSteps
        [NavEvent.debounceFire [(5, 9/10)], NavEvent.scrollEffect,
         NavEvent.debounceFire [(7, 1)]]
        (goToPage 10 3 ⟨1, false, none, []⟩)).emitted = [] ∧
    (clearFlagStep (navSteps
        [NavEvent.debounceFire [(5, 9/10)], NavEvent.scrollEffect,
         NavEvent.debounceFire [(7, 1)]]
        (goToPage 10 3 ⟨1, false, none, []⟩))).currentPage = 3 ∧
    (clearFlagStep (navSteps
        [NavEvent.debounceFire [(5, 9/10)], NavEvent.scrollEffect,
         NavEvent.debounceFire [(7, 1)]]
        (goToPage 10 3 ⟨1, false, none, []⟩))).isNavigating = false :=
  navigation_race_spec 10 3 ⟨1, false, none, []⟩
    [NavEvent.debounceFire [(5, 9/10)], NavEvent.scrollEffect,
     NavEvent.debounceFire [(7, 1)]]
    (by decide) (by decide) (by decide)

/-- Helper: each rotation operation preserves membership in
{0, 90, 180, 270}. -/
theorem applyRot_mem (op : RotOp) (r : Int) (h : RotVals r) :
    RotVals (applyRot op r) := by
  rcases op with _ | _ <;>
    rcases h with h | h | h | h <;>
      subst h <;> decide

/-- Helper: rotation sequences from a value in {0, 90, 180, 270} stay in
that set. -/
theorem applyRots_mem (ops : List RotOp) (r : Int) (h : RotVals r) :
    RotVals (applyRots ops r) := by
  induction ops generalizing r with
  | nil => exact h
  | cons op rest ih => exact ih (applyRot op r) (applyRot_mem op r h)

/-- C10: starting from rotation 0 every sequence of rotateLeft/rotateRight
operations stays in {0, 90, 180, 270}; on that set the two operations are
mutually inverse and each is of order four. -/
theorem rotation_spec :
    (∀ ops : List RotOp, RotVals (applyRots ops 0)) ∧
    (∀ r : Int, RotVals r →
      rotateLeftVal (rotateRightVal r) = r ∧
      rotateRightVal (rotateLeftVal r) = r) ∧
    (∀ r : Int, RotVals r →
      applyRots [RotOp.right, RotOp.right, RotOp.right, RotOp.right] r = r ∧
      applyRots [RotOp.left, RotOp.left, RotOp.left, RotOp.left] r = r) := by
  refine ⟨?_, ?_, ?_⟩
  · intro ops
    exact applyRots_mem ops 0 (by decide)
  · intro r h
    rcases h with h | h | h | h <;> subst h <;> exact ⟨by decide, by decide⟩
  · intro r h
    rcases h with h | h | h | h <;> subst h <;> exact ⟨by decide, by decide⟩

/-- Helper: every single search operation preserves the current-match-index
invariant. -/
theorem applySearchOp_inv (op : SearchOp) (s : SearchState)
    (h : SearchInv s) : SearchInv (applySearchOp op s) := by
  cases op with
  | commit q tc =>
    simp only [applySearchOp, performSearchStep]
    by_cases hq : q.length < 1
    · rw [if_pos hq]
      exact ⟨fun _ => rfl, by simp⟩
    · rw [if_neg hq]
      by_cases hm : 0 < (performSearchMatches q tc).length
      · rw [if_pos hm]
        constructor
        · intro h0
          have h0b : (performSearchMatches q tc).length = 0 := h0
          omega
        · intro _
          refine ⟨le_refl 0, ?_⟩
          show (0 : Int) < ((performSearchMatches q tc).length : Int)
          exact_mod_cast hm
      · rw [if_neg hm]
        exact ⟨fun _ => rfl, fun h0 => absurd h0 hm⟩
  | next =>
    simp only [applySearchOp, searchNextStep]
    by_cases hm : s.searchMatches.length = 0
    · rw [if_pos hm]; exact h
    · rw [if_neg hm]
      have hpos : (0 : Int) < (s.searchMatches.length : Int) := by
        omega
      have hi := h.2 (by omega)
      have hnn : (0 : Int) ≤ s.currentMatchIndex + 1 := by omega
      rw [Int.tmod_eq_emod hnn (le_of_lt hpos)]
      refine ⟨fun h0 => absurd h0 hm, fun _ => ?_⟩
      exact ⟨Int.emod_nonneg _ (by omega), Int.emod_lt_of_pos _ hpos⟩
  | prev =>
    simp only [applySearchOp, searchPrevStep]
    by_cases hm : s.searchMatches.length = 0
    · rw [if_pos hm]; exact h
    · rw [if_neg hm]
      have hpos : (0 : Int) < (s.searchMatches.length : Int) := by
        omega
      have hi := h.2 (by omega)
      have hnn : (0 : Int) ≤ s.currentMatchIndex - 1 +
          (s.searchMatches.length : Int) := by omega
      show SearchInv
        { s with currentMatchIndex :=
            (Int.tmod
              (s.currentMatchIndex - 1 + (s.searchMatches.length : Int))
              (s.searchMatches.length : Int)) }
      rw [Int.tmod_eq_emod hnn (le_of_lt hpos)]
      refine ⟨fun h0 => absurd h0 hm, fun _ => ?_⟩
      exact ⟨Int.emod_nonneg _ (by omega), Int.emod_lt_of_pos _ hpos⟩

/-- C9: `next` and `previous` move the current index by plus or minus one
modulo the match count (so the last match wraps to the first and the first
wraps back to the last), an empty match list leaves both operations
inert, and every sequence of search and navigation operations keeps the
current index in [-1, length) with -1 exactly on an empty match list. -/
theorem search_navigation_spec :
    (∀ (s : SearchState) (i n : Int),
      (s.searchMatches.length : Int) = n → s.currentMatchIndex = i →
      0 ≤ i → i < n →
      (searchNextStep s).currentMatchIndex = (i + 1) % n ∧
      (searchPrevStep s).currentMatchIndex = (i - 1 + n) % n) ∧
    (∀ s : SearchState,
      s.currentMatchIndex = (s.searchMatches.length : Int) - 1 →
      0 < s.searchMatches.length →
      (searchNextStep s).currentMatchIndex = 0) ∧
    (∀ s : SearchState,
      s.currentMatchIndex = 0 → 0 < s.searchMatches.length →
      (searchPrevStep s).currentMatchIndex =
        (s.searchMatches.length : Int) - 1) ∧
    (∀ s : SearchState, s.searchMatches.length = 0 →
      searchNextStep s = s ∧ searchPrevStep s = s) ∧
    (∀ (ops : List SearchOp) (s : SearchState),
      SearchInv s → SearchInv (applySearchOps ops s)) ∧
    (∀ s : SearchState, SearchInv s →
      (s.currentMatchIndex = -1 ↔ s.searchMatches.length = 0)) := by
  have hbase : ∀ (s : SearchState) (i n : Int),
      (s.searchMatches.length : Int) = n → s.currentMatchIndex = i →
      0 ≤ i → i < n →
      (searchNextStep s).currentMatchIndex = (i + 1) % n ∧
      (searchPrevStep s).currentMatchIndex = (i - 1 + n) % n := by
    intro s i n hn hi h0 hlt
    have hm : ¬ s.searchMatches.length = 0 := by omega
    constructor
    · simp only [searchNextStep, if_neg hm, hn, hi]
      exact Int.tmod_eq_emod (by omega) (by omega)
    · simp only [searchPrevStep, if_neg hm, hn, hi]
      exact Int.tmod_eq_emod (by omega) (by omega)
  refine ⟨hbase, ?_, ?_, ?_, ?_, ?_⟩
  · intro s hlast hpos
    have h := (hbase s ((s.searchMatches.length : Int) - 1)
      (s.searchMatches.length : Int) rfl hlast (by omega) (by omega)).1
    rw [h]
    have : (s.searchMatches.length : Int) - 1 + 1 =
        (s.searchMatches.length : Int) := by ring
    rw [this, Int.emod_self]
  · intro s hfirst hpos
    have h := (hbase s 0 (s.searchMatches.length : Int) rfl hfirst
      (le_refl 0) (by omega)).2
    rw [h]
    have h2 : (0 : Int) - 1 + (s.searchMatches.length : Int) =
        (s.searchMatches.length : Int) - 1 := by ring
    rw [h2]
    exact Int.emod_eq_of_lt (by omega) (by omega)
  · intro s hm
    constructor
    · simp [searchNextStep, hm]
    · simp [searchPrevStep, hm]
  · intro ops
    induction ops with
    | nil => intro s h; exact h
    | cons op rest ih =>
      intro s h
      exact ih (applySearchOp op s) (applySearchOp_inv op s h)
  · intro s h
    constructor
    · intro h1
      by_contra hne
      have := (h.2 (by omega)).1
      omega
    · exact h.1

/-- C9 witness: on a three-match list at the last index, `next` wraps to 0
and `previous` steps back; the empty list is inert; the invariant holds
after a concrete operation sequence from the initial search state. -/
theorem search_navigation_spec_witness :
    (searchNextStep ⟨[⟨1, 0, 0, 1⟩, ⟨1, 0, 1, 1⟩, ⟨2, 0, 0, 1⟩], 2⟩
      : SearchState).currentMatchIndex = (2 + 1) % 3 ∧
    (searchPrevStep ⟨[⟨1, 0, 0, 1⟩, ⟨1, 0, 1, 1⟩, ⟨2, 0, 0, 1⟩], 2⟩
      : SearchState).currentMatchIndex = (2 - 1 + 3) % 3 ∧
    (searchNextStep ⟨[⟨1, 0, 0, 1⟩, ⟨1, 0, 1, 1⟩, ⟨2, 0, 0, 1⟩], 2⟩
      : SearchState).currentMatchIndex = 0 ∧
    searchNextStep (⟨[], -1⟩ : SearchState) = ⟨[], -1⟩ ∧
    SearchInv (applySearchOps
      [SearchOp.commit [Char.ofNat 97] [(1, [[Char.ofNat 97]])],
       SearchOp.next, SearchOp.prev] ⟨[], -1⟩) := by
  refine ⟨?_, ?_, ?_, ?_, ?_⟩
  · exact (search_navigation_spec.1
      ⟨[⟨1, 0, 0, 1⟩, ⟨1, 0, 1, 1⟩, ⟨2, 0, 0, 1⟩], 2⟩ 2 3 (by decide)
      (by decide) (by decide) (by decide)).1
  · exact (search_navigation_spec.1
      ⟨[⟨1, 0, 0, 1⟩, ⟨1, 0, 1, 1⟩, ⟨2, 0, 0, 1⟩], 2⟩ 2 3 (by decide)
      (by decide) (by decide) (by decide)).2
  · exact search_navigation_spec.2.1
      ⟨[⟨1, 0, 0, 1⟩, ⟨1, 0, 1, 1⟩, ⟨2, 0, 0, 1⟩], 2⟩ (by decide)
      (by decide)
  · exact (search_navigation_spec.2.2.2.1 ⟨[], -1⟩ (by decide)).1
  · exact search_navigation_spec.2.2.2.2.1
      [SearchOp.commit [Char.ofNat 97] [(1, [[Char.ofNat 97]])],
       SearchOp.next, SearchOp.prev] ⟨[], -1⟩ (by decide)

/-- C1 (code bug evaluation): a page whose in-flight render is reaped by
the timeout sweep and whose awaiting continuation then observes the
cancellation stays recorded as `rendering` in the rendered-pages map even
though it has left the rendering set, and a subsequent visibility signal
for it does not start a fresh render: the state is unchanged. -/
theorem render_cancel_stuck :
    lookupAssoc 1 (cancelObserved 1 (timeoutReap 1
        (startRender 1 initialViewerState))).renderedPages
      = some RState.rendering ∧
    1 ∉ (cancelObserved 1 (timeoutReap 1
        (startRender 1 initialViewerState))).renderingSet ∧
    visibleTrigger 1 (cancelObserved 1 (timeoutReap 1
        (startRender 1 initialViewerState)))
      = cancelObserved 1 (timeoutReap 1
        (startRender 1 initialViewerState)) := by
  refine ⟨by decide, by decide, by decide⟩

/-- Helper: no render-lifecycle event ever removes a page from the
ever-rendered set. -/
theorem renderStep_everRendered_mono (e : RenderEvent) (s : ViewerState)
    (p : Nat) (h : p ∈ s.everRendered) :
    p ∈ (renderStep e s).everRendered := by
  cases e with
  | start q =>
    simp only [renderStep, startRender]
    by_cases hq : q ∈ s.renderingSet
    · rw [if_pos hq]; exact h
    · rw [if_neg hq]; exact h
  | complete q txt =>
    simp only [renderStep, completeRender, insertSet]
    by_cases hq : q ∈ s.everRendered
    · rw [if_pos hq]; exact h
    · rw [if_neg hq]; exact List.mem_cons_of_mem q h
  | cancelled q => exact h
  | failed q => exact h
  | reap q => exact h
  | visible q =>
    simp only [renderStep, visibleTrigger]
    by_cases hc : lookupAssoc q s.renderedPages = none ∧
        q ∉ s.renderingSet
    · rw [if_pos hc]
      simp only [startRender]
      by_cases hq : q ∈ s.renderingSet
      · rw [if_pos hq]; exact h
      · rw [if_neg hq]; exact h
    · rw [if_neg hc]; exact h
  | zoom z mode => exact h
  | rotL => exact h
  | rotR => exact h

/-- C8: zoom and rotation reset the rendered-pages map and the extracted
text but leave the ever-rendered set untouched, and membership in the
ever-rendered set is monotonic along every sequence of render-lifecycle
events within one document. -/
theorem everRendered_spec :
    (∀ (z : ℚ) (mode : Option (List Char)) (s : ViewerState),
      (applyZoomStep z mode s).everRendered = s.everRendered ∧
      (applyZoomStep z mode s).renderedPages = [] ∧
      (applyZoomStep z mode s).textContent = [] ∧
      (applyZoomStep z mode s).rotation = s.rotation) ∧
    (∀ s : ViewerState,
      (rotateLeftStep s).everRendered = s.everRendered ∧
      (rotateLeftStep s).renderedPages = [] ∧
      (rotateLeftStep s).textContent = [] ∧
      (rotateLeftStep s).scale = s.scale) ∧
    (∀ s : ViewerState,
      (rotateRightStep s).everRendered = s.everRendered ∧
      (rotateRightStep s).renderedPages = [] ∧
      (rotateRightStep s).textContent = [] ∧
      (rotateRightStep s).scale = s.scale) ∧
    (∀ (evs : List RenderEvent) (s : ViewerState) (p : Nat),
      p ∈ s.everRendered → p ∈ (renderSteps evs s).everRendered) := by
  refine ⟨fun z mode s => ⟨rfl, rfl, rfl, rfl⟩,
    fun s => ⟨rfl, rfl, rfl, rfl⟩, fun s => ⟨rfl, rfl, rfl, rfl⟩, ?_⟩
  intro evs
  induction evs with
  | nil => intro s p h; exact h
  | cons e rest ih =>
    intro s p h
    exact ih (renderStep e s) p (renderStep_everRendered_mono e s p h)

/-- C8 witness: page 3, rendered once, stays in the ever-rendered set
across a rotation, a zoom, another page's completion and a cancellation,
even though the zoom resets the rendered-pages map and the text content. -/
theorem everRendered_spec_witness :
    (applyZoomStep 2 none (completeRender 3 [] initialViewerState)
      ).everRendered = (completeRender 3 [] initialViewerState
      ).everRendered ∧
    3 ∈ (renderSteps
      [RenderEvent.rotL, RenderEvent.zoom 2 none,
       RenderEvent.complete 5 [], RenderEvent.cancelled 3]
      (completeRender 3 [] initialViewerState)).everRendered :=
  ⟨(everRendered_spec.1 2 none (completeRender 3 [] initialViewerState)).1,
    everRendered_spec.2.2.2
      [RenderEvent.rotL, RenderEvent.zoom 2 none,
       RenderEvent.complete 5 [], RenderEvent.cancelled 3]
      (completeRender 3 [] initialViewerState) 3 (by decide)⟩

/-- Helper: a nonempty needle can only occur at an offset inside the
haystack. -/
theorem occurrence_lt_length {needle hay : List Char} (hne : needle ≠ [])
    (i : Nat) (h : needle.isPrefixOf (hay.drop i) = true) : i < hay.length := by
  by_contra hi
  have hdrop : hay.drop i = [] := List.drop_eq_nil_of_le (by omega)
  rw [hdrop] at h
  cases needle with
  | nil => exact hne rfl
  | cons c cs => simp [List.isPrefixOf] at h

/-- Helper: a successful `idxScan` returns an offset at or after the scan
start where the needle occurs, and no occurrence lies between the start
and the returned offset. -/
theorem idxScan_some {needle hay : List Char} :
    ∀ (fuel i j : Nat), idxScan needle hay i fuel = some j →
      i ≤ j ∧ needle.isPrefixOf (hay.drop j) = true ∧
        ∀ k, i ≤ k → k < j → needle.isPrefixOf (hay.drop k) = false := by
  intro fuel
  induction fuel with
  | zero => intro i j h; exact absurd h (by simp [idxScan])
  | succ f ih =>
    intro i j h
    by_cases hc : needle.isPrefixOf (hay.drop i) = true
    · simp only [idxScan, if_pos hc] at h
      cases h
      exact ⟨le_refl i, hc, fun k hk1 hk2 => absurd hk1 (by omega)⟩
    · simp only [idxScan, if_neg hc] at h
      obtain ⟨h1, h2, h3⟩ := ih (i + 1) j h
      refine ⟨by omega, h2, ?_⟩
      intro k hk1 hk2
      by_cases hk : k = i
      · subst hk
        exact Bool.eq_false_iff.mpr hc
      · exact h3 k (by omega) hk2

/-- Helper: a failed `idxScan` means the needle occurs nowhere in the
scanned fuel window. -/
theorem idxScan_none {needle hay : List Char} :
    ∀ (fuel i : Nat), idxScan needle hay i fuel = none →
      ∀ k, i ≤ k → k < i + fuel →
        needle.isPrefixOf (hay.drop k) = false := by
  intro fuel
  induction fuel with
  | zero => intro i _ k hk1 hk2; omega
  | succ f ih =>
    intro i h k hk1 hk2
    by_cases hc : needle.isPrefixOf (hay.drop i) = true
    · simp [idxScan, hc] at h
    · simp only [idxScan, if_neg hc] at h
      by_cases hk : k = i
      · subst hk
        exact Bool.eq_false_iff.mpr hc
      · exact ih (i + 1) h k (by omega) (by omega)

/-- Helper: a failed `indexOf` from `start` means the needle occurs at no
offset at or after `start` at all. -/
theorem indexOfFrom_none {needle hay : List Char} (hne : needle ≠ [])
    (start : Nat) (h : indexOfFrom needle hay start = none) :
    ∀ k, start ≤ k → needle.isPrefixOf (hay.drop k) = false := by
  intro k hk
  by_cases hocc : needle.isPrefixOf (hay.drop k) = true
  · have hklt : k < hay.length := occurrence_lt_length hne k hocc
    have := idxScan_none (hay.length + 1 - start) start h k hk (by omega)
    rw [this] at hocc
    cases hocc
  · exact Bool.eq_false_iff.mpr hocc

/-- Helper: a successful `indexOf` from `start` returns the least
occurrence offset at or after `start`. -/
theorem indexOfFrom_some {needle hay : List Char} (start j : Nat)
    (h : indexOfFrom needle hay start = some j) :
    start ≤ j ∧ needle.isPrefixOf (hay.drop j) = true ∧
      ∀ k, start ≤ k → k < j → needle.isPrefixOf (hay.drop k) = false :=
  idxScan_some (hay.length + 1 - start) start j h

/-- Helper: with enough fuel, the occurrence loop collects exactly the
offsets at or after its start where the needle occurs. -/
theorem mem_findAllFrom {needle hay : List Char} (hne : needle ≠ []) :
    ∀ (fuel start j : Nat), hay.length + 1 ≤ start + fuel →
      (j ∈ findAllFrom needle hay start fuel ↔
        (start ≤ j ∧ needle.isPrefixOf (hay.drop j) = true)) := by
  intro fuel
  induction fuel with
  | zero =>
    intro start j hfuel
    simp only [findAllFrom, List.not_mem_nil, false_iff]
    intro ⟨hj1, hj2⟩
    have := occurrence_lt_length hne j hj2
    omega
  | succ f ih =>
    intro start j hfuel
    cases hidx : indexOfFrom needle hay start with
    | none =>
      simp only [findAllFrom, hidx, List.not_mem_nil, false_iff]
      intro ⟨hj1, hj2⟩
      rw [indexOfFrom_none hne start hidx j hj1] at hj2
      cases hj2
    | some i =>
      obtain ⟨hi1, hi2, hi3⟩ := indexOfFrom_some start i hidx
      have hilt : i < hay.length := occurrence_lt_length hne i hi2
      simp only [findAllFrom, hidx, List.mem_cons]
      rw [ih (i + 1) j (by omega)]
      constructor
      · intro h
        rcases h with h | ⟨h1, h2⟩
        · subst h; exact ⟨hi1, hi2⟩
        · exact ⟨by omega, h2⟩
      · intro ⟨hj1, hj2⟩
        by_cases hji : j = i
        · exact Or.inl hji
        · refine Or.inr ⟨?_, hj2⟩
          by_contra hlt
          have := hi3 j hj1 (by omega)
          rw [this] at hj2
          cases hj2

/-- Helper: every offset collected by the occurrence loop is at or after
its start. -/
theorem findAllFrom_ge {needle hay : List Char} :
    ∀ (fuel start j : Nat), j ∈ findAllFrom needle hay start fuel →
      start ≤ j := by
  intro fuel
  induction fuel with
  | zero => intro start j h; simp [findAllFrom] at h
  | succ f ih =>
    intro start j h
    cases hidx : indexOfFrom needle hay start with
    | none => rw [findAllFrom, hidx] at h; simp at h
    | some i =>
      obtain ⟨hi1, _, _⟩ := indexOfFrom_some start i hidx
      rw [findAllFrom, hidx] at h
      rcases List.mem_cons.mp h with h | h
      · omega
      · have := ih (i + 1) j h
        omega

/-- Helper: the occurrence loop collects strictly increasing offsets. -/
theorem findAllFrom_sorted {needle hay : List Char} :
    ∀ (fuel start : Nat),
      (findAllFrom needle hay start fuel).Pairwise (· < ·) := by
  intro fuel
  induction fuel with
  | zero => intro start; simp [findAllFrom]
  | succ f ih =>
    intro start
    cases hidx : indexOfFrom needle hay start with
    | none => rw [findAllFrom, hidx]; simp
    | some i =>
      rw [findAllFrom, hidx]
      refine List.Pairwise.cons ?_ (ih (i + 1))
      intro j hj
      have := findAllFrom_ge f (i + 1) j hj
      omega

/-- Helper: membership in `findAll` is exactly occurrence of the needle at
that offset. -/
theorem mem_findAll {needle hay : List Char} (hne : needle ≠ []) (j : Nat) :
    j ∈ findAll needle hay ↔
      needle.isPrefixOf (hay.drop j) = true := by
  rw [findAll, mem_findAllFrom hne (hay.length + 1) 0 j (by omega)]
  simp

/-- Helper: `findAll` is strictly increasing. -/
theorem findAll_sorted {needle hay : List Char} :
    (findAll needle hay).Pairwise (· < ·) :=
  findAllFrom_sorted (hay.length + 1) 0

/-- Helper: membership in the per-item match list. -/
theorem mem_matchesOfItem {ql : List Char} {qlen p i : Nat}
    {item : List Char} {m : SearchMatch} :
    m ∈ matchesOfItem ql qlen p i item ↔
      ∃ off, off ∈ findAll ql (lowerStr item) ∧
        m = ⟨p, i, off, qlen⟩ := by
  simp only [matchesOfItem, List.mem_map]
  constructor
  · intro ⟨off, h1, h2⟩; exact ⟨off, h1, h2.symm⟩
  · intro ⟨off, h1, h2⟩; exact ⟨off, h1, h2.symm⟩

/-- Helper: the per-item match list is pushed with ascending offsets. -/
theorem pairwise_matchesOfItem {ql : List Char} {qlen p i : Nat}
    {item : List Char} :
    (matchesOfItem ql qlen p i item).Pairwise matchPushOrder := by
  rw [matchesOfItem, List.pairwise_map]
  refine List.Pairwise.imp ?_ findAll_sorted
  intro a b hab
  intro _ _
  simp only
  omega

/-- Helper: membership in the item-loop match list, with the item index
offset by the loop counter. -/
theorem mem_matchesOfItems {ql : List Char} {qlen p : Nat} :
    ∀ (items : List (List Char)) (i : Nat) (m : SearchMatch),
      m ∈ matchesOfItems ql qlen p i items ↔
        ∃ j item, items.get? j = some item ∧
          ∃ off, off ∈ findAll ql (lowerStr item) ∧
            m = ⟨p, i + j, off, qlen⟩ := by
  intro items
  induction items with
  | nil =>
    intro i m
    simp [matchesOfItems]
  | cons item rest ih =>
    intro i m
    simp only [matchesOfItems, List.mem_append, mem_matchesOfItem, ih (i + 1)]
    constructor
    · intro h
      rcases h with ⟨off, h1, h2⟩ | ⟨j, itm, h1, off, h2, h3⟩
      · exact ⟨0, item, rfl, off, h1, by simpa using h2⟩
      · refine ⟨j + 1, itm, by simpa using h1, off, h2, ?_⟩
        rw [h3]
        congr 1
        omega
    · intro ⟨j, itm, h1, off, h2, h3⟩
      cases j with
      | zero =>
        left
        refine ⟨off, ?_, ?_⟩
        · have heq : item = itm := by simpa using h1
          rw [heq]; exact h2
        · simpa using h3
      | succ j2 =>
        right
        refine ⟨j2, itm, by simpa using h1, off, h2, ?_⟩
        rw [h3]
        congr 1
        omega

/-- Helper: the item loop pushes matches in per-fragment ascending offset
order (matches of distinct fragments have distinct item indices). -/
theorem pairwise_matchesOfItems {ql : List Char} {qlen p : Nat} :
    ∀ (items : List (List Char)) (i : Nat),
      (matchesOfItems ql qlen p i items).Pairwise matchPushOrder := by
  intro items
  induction items with
  | nil => intro i; simp [matchesOfItems]
  | cons item rest ih =>
    intro i
    rw [matchesOfItems, List.pairwise_append]
    refine ⟨pairwise_matchesOfItem, ih (i + 1), ?_⟩
    intro a ha b hb
    obtain ⟨offa, _, ha2⟩ := mem_matchesOfItem.mp ha
    obtain ⟨j, itm, _, offb, _, hb2⟩ := (mem_matchesOfItems rest (i + 1) b).mp hb
    intro _ hitem
    rw [ha2, hb2] at hitem
    simp only at hitem
    omega

/-- Helper: membership in the page-loop match list. -/
theorem mem_collectMatches {ql : List Char} {qlen : Nat} :
    ∀ (tc : List (Nat × List (List Char))) (m : SearchMatch),
      m ∈ collectMatches ql qlen tc ↔
        ∃ p items, (p, items) ∈ tc ∧
          m ∈ matchesOfItems ql qlen p 0 items := by
  intro tc
  induction tc with
  | nil => intro m; simp [collectMatches]
  | cons entry rest ih =>
    intro m
    obtain ⟨p, items⟩ := entry
    simp only [collectMatches, List.mem_append, ih, List.mem_cons]
    constructor
    · intro h
      rcases h with h | ⟨p2, items2, h1, h2⟩
      · exact ⟨p, items, Or.inl rfl, h⟩
      · exact ⟨p2, items2, Or.inr h1, h2⟩
    · intro ⟨p2, items2, h1, h2⟩
      rcases h1 with h1 | h1
      · left
        have hp : p2 = p ∧ items2 = items := by
          constructor
          · exact congrArg Prod.fst h1
          · exact congrArg Prod.snd h1
        rw [hp.1, hp.2] at h2
        exact h2
      · exact Or.inr ⟨p2, items2, h1, h2⟩

/-- Helper: every collected match carries the page number of its map
entry. -/
theorem collectMatches_pageNum {ql : List Char} {qlen : Nat}
    (tc : List (Nat × List (List Char))) (m : SearchMatch)
    (h : m ∈ collectMatches ql qlen tc) :
    m.pageNum ∈ tc.map Prod.fst := by
  obtain ⟨p, items, h1, h2⟩ := (mem_collectMatches tc m).mp h
  obtain ⟨j, itm, _, off, _, h3⟩ := (mem_matchesOfItems items 0 m).mp h2
  rw [h3]
  simp only [List.mem_map]
  exact ⟨(p, items), h1, rfl⟩

/-- Helper: with distinct page keys (a map), the unsorted collected list
is pushed in per-fragment ascending offset order. -/
theorem pairwise_collectMatches {ql : List Char} {qlen : Nat} :
    ∀ (tc : List (Nat × List (List Char))),
      (tc.map Prod.fst).Nodup →
      (collectMatches ql qlen tc).Pairwise matchPushOrder := by
  intro tc
  induction tc with
  | nil => intro _; simp [collectMatches]
  | cons entry rest ih =>
    intro hnd
    obtain ⟨p, items⟩ := entry
    simp only [List.map_cons, List.nodup_cons] at hnd
    rw [collectMatches, List.pairwise_append]
    refine ⟨pairwise_matchesOfItems items 0, ih hnd.2, ?_⟩
    intro a ha b hb
    obtain ⟨j, itm, _, off, _, ha2⟩ := (mem_matchesOfItems items 0 a).mp ha
    have hbp := collectMatches_pageNum rest b hb
    intro hpage
    rw [ha2] at hpage
    simp only at hpage
    rw [← hpage] at hbp
    exact absurd hbp hnd.1

/-- Helper: a comparator-below-or-equal pair whose offsets are push-ordered
is ordered. -/
theorem matchOrdered_of_le (x y : SearchMatch) (hle : matchLe x y = true)
    (hoff : matchPushOrder x y) : matchOrdered x y := by
  simp only [matchLe, Bool.or_eq_true, Bool.and_eq_true,
    decide_eq_true_eq] at hle
  unfold matchPushOrder at hoff
  unfold matchOrdered
  by_cases hp : x.pageNum = y.pageNum
  · by_cases hi : x.itemIndex = y.itemIndex
    · have := hoff hp hi
      omega
    · omega
  · omega

/-- Helper: ordering transfers across the comparator: if `x` compares at
or before `y` and `y` is ordered before `z`, then `x` is ordered before
`z`, given the push-order fact for the equal-key case. -/
theorem matchOrdered_le_trans (x y z : SearchMatch)
    (hle : matchLe x y = true) (hyz : matchOrdered y z)
    (hoff : matchPushOrder x z) : matchOrdered x z := by
  simp only [matchLe, Bool.or_eq_true, Bool.and_eq_true,
    decide_eq_true_eq] at hle
  unfold matchOrdered at hyz ⊢
  unfold matchPushOrder at hoff
  by_cases hp : x.pageNum = z.pageNum
  · by_cases hi : x.itemIndex = z.itemIndex
    · have := hoff hp hi
      omega
    · omega
  · omega

/-- Helper: a comparator-strictly-after pair is ordered the other way. -/
theorem matchOrdered_of_not_le (x y : SearchMatch)
    (hle : matchLe x y = false) : matchOrdered y x := by
  have hle2 : ¬ matchLe x y = true := by simp [hle]
  simp only [matchLe, Bool.or_eq_true, Bool.and_eq_true,
    decide_eq_true_eq] at hle2
  push_neg at hle2
  unfold matchOrdered
  omega

/-- Helper: inserting adds exactly the new element to the members. -/
theorem mem_insertMatch :
    ∀ (l : List SearchMatch) (x a : SearchMatch),
      a ∈ insertMatch x l ↔ a = x ∨ a ∈ l := by
  intro l
  induction l with
  | nil => intro x a; simp [insertMatch]
  | cons y ys ih =>
    intro x a
    by_cases hle : matchLe x y = true
    · rw [insertMatch, if_pos hle]
      simp [List.mem_cons]
    · rw [insertMatch, if_neg hle]
      simp only [List.mem_cons, ih]
      tauto

/-- Helper: stable insertion preserves sortedness, given that the inserted
element is push-ordered before every equal-key element of the list. -/
theorem pairwise_insertMatch :
    ∀ (l : List SearchMatch) (x : SearchMatch),
      l.Pairwise matchOrdered →
      (∀ y ∈ l, matchPushOrder x y) →
      (insertMatch x l).Pairwise matchOrdered := by
  intro l
  induction l with
  | nil =>
    intro x _ _
    simp [insertMatch]
  | cons y ys ih =>
    intro x hp hoff
    rw [List.pairwise_cons] at hp
    by_cases hle : matchLe x y = true
    · rw [insertMatch, if_pos hle]
      refine List.Pairwise.cons ?_ (List.Pairwise.cons hp.1 hp.2)
      intro z hz
      rcases List.mem_cons.mp hz with hz | hz
      · subst hz
        exact matchOrdered_of_le x z hle (hoff z (List.mem_cons_self z ys))
      · exact matchOrdered_le_trans x y z hle (hp.1 z hz)
          (hoff z (List.mem_cons_of_mem y hz))
    · rw [insertMatch, if_neg hle]
      refine List.Pairwise.cons ?_ ?_
      · intro z hz
        rcases (mem_insertMatch ys x z).mp hz with hz | hz
        · subst hz
          exact matchOrdered_of_not_le z y (Bool.eq_false_iff.mpr hle)
        · exact hp.1 z hz
      · exact ih x hp.2
          (fun z hz => hoff z (List.mem_cons_of_mem y hz))

/-- Helper: sorting does not change the members. -/
theorem mem_sortMatches :
    ∀ (l : List SearchMatch) (a : SearchMatch),
      a ∈ sortMatches l ↔ a ∈ l := by
  intro l
  induction l with
  | nil => intro a; simp [sortMatches]
  | cons x xs ih =>
    intro a
    rw [sortMatches, mem_insertMatch, ih, List.mem_cons]

/-- Helper: the stable sort of a push-ordered list is fully ordered: page
ascending, then item index ascending, then start offset ascending. -/
theorem pairwise_sortMatches :
    ∀ (l : List SearchMatch), l.Pairwise matchPushOrder →
      (sortMatches l).Pairwise matchOrdered := by
  intro l
  induction l with
  | nil => intro _; simp [sortMatches]
  | cons x xs ih =>
    intro hp
    rw [List.pairwise_cons] at hp
    rw [sortMatches]
    refine pairwise_insertMatch (sortMatches xs) x (ih hp.2) ?_
    intro y hy
    exact hp.1 y ((mem_sortMatches xs y).mp hy)

/-- C4: for every query and every text map (distinct page keys), the
match list produced by a committed search is sorted: page ascending, then
fragment index ascending, then start offset ascending. -/
theorem search_sorted_spec :
    ∀ (q : List Char) (tc : List (Nat × List (List Char))),
      (tc.map Prod.fst).Nodup →
      (performSearchMatches q tc).Pairwise matchOrdered := by
  intro q tc hnd
  unfold performSearchMatches
  by_cases hq : q.length < 1
  · rw [if_pos hq]
    exact List.Pairwise.nil
  · rw [if_neg hq]
    exact pairwise_sortMatches _ (pairwise_collectMatches tc hnd)

/-- C4 witness: the spec example, query "the" over pages
["The cat", "the mat"] and ["bathed"], is sorted and equals the expected
match list. -/
theorem search_sorted_spec_witness :
    (performSearchMatches [Char.ofNat 116, Char.ofNat 104, Char.ofNat 101]
      [(1, [[Char.ofNat 84, Char.ofNat 104, Char.ofNat 101, Char.ofNat 32,
             Char.ofNat 99, Char.ofNat 97, Char.ofNat 116],
            [Char.ofNat 116, Char.ofNat 104, Char.ofNat 101, Char.ofNat 32,
             Char.ofNat 109, Char.ofNat 97, Char.ofNat 116]]),
       (2, [[Char.ofNat 98, Char.ofNat 97, Char.ofNat 116, Char.ofNat 104,
             Char.ofNat 101, Char.ofNat 100]])]).Pairwise matchOrdered ∧
    performSearchMatches [Char.ofNat 116, Char.ofNat 104, Char.ofNat 101]
      [(1, [[Char.ofNat 84, Char.ofNat 104, Char.ofNat 101, Char.ofNat 32,
             Char.ofNat 99, Char.ofNat 97, Char.ofNat 116],
            [Char.ofNat 116, Char.ofNat 104, Char.ofNat 101, Char.ofNat 32,
             Char.ofNat 109, Char.ofNat 97, Char.ofNat 116]]),
       (2, [[Char.ofNat 98, Char.ofNat 97, Char.ofNat 116, Char.ofNat 104,
             Char.ofNat 101, Char.ofNat 100]])]
      = [⟨1, 0, 0, 3⟩, ⟨1, 1, 0, 3⟩, ⟨2, 0, 2, 3⟩] :=
  ⟨search_sorted_spec _ _ (by decide), by decide⟩

/-- C3 counterexample: searching "aa" in a single fragment "aaa" records
the two occurrence starts 0 and 1, whose intervals [0,2) and [1,3)
overlap: the recorded occurrence starts are not non-overlapping. -/
theorem search_overlap_counterexample :
    performSearchMatches [Char.ofNat 97, Char.ofNat 97]
        [(1, [[Char.ofNat 97, Char.ofNat 97, Char.ofNat 97]])]
      = [⟨1, 0, 0, 2⟩, ⟨1, 0, 1, 2⟩] ∧
    ∃ m1 m2 : SearchMatch,
      m1 ∈ performSearchMatches [Char.ofNat 97, Char.ofNat 97]
        [(1, [[Char.ofNat 97, Char.ofNat 97, Char.ofNat 97]])] ∧
      m2 ∈ performSearchMatches [Char.ofNat 97, Char.ofNat 97]
        [(1, [[Char.ofNat 97, Char.ofNat 97, Char.ofNat 97]])] ∧
      m1 ≠ m2 ∧ overlaps m1 m2 :=
  ⟨by decide, ⟨1, 0, 0, 2⟩, ⟨1, 0, 1, 2⟩, by decide, by decide, by decide,
    by decide⟩

/-- C3 (amended): for every nonempty committed query the produced match
list records exactly the set of all case-insensitive occurrence starts of
the query in each extracted fragment — including overlapping ones, since
the scan resumes one character past each found start — each with the
fragment's page number, fragment index, occurrence start offset, and
length equal to the query length. -/
theorem search_matches_characterization :
    ∀ (q : List Char) (tc : List (Nat × List (List Char)))
      (m : SearchMatch), q ≠ [] →
      (m ∈ performSearchMatches q tc ↔ isOccurrence q tc m) := by
  intro q tc m hq
  have hql : ¬ q.length < 1 := by
    cases q with
    | nil => exact absurd rfl hq
    | cons c cs => simp
  have hqlow : lowerStr q ≠ [] := by
    cases q with
    | nil => exact absurd rfl hq
    | cons c cs => simp [lowerStr]
  unfold performSearchMatches
  rw [if_neg hql, mem_sortMatches, mem_collectMatches]
  constructor
  · intro ⟨p, items, h1, h2⟩
    obtain ⟨j, itm, h3, off, h4, h5⟩ := (mem_matchesOfItems items 0 m).mp h2
    rw [h5]
    refine ⟨rfl, items, ?_, itm, ?_, ?_⟩
    · simpa using h1
    · simpa using h3
    · simp only
      exact (mem_findAll hqlow off).mp h4
  · intro ⟨hlen, items, h1, itm, h2, h3⟩
    refine ⟨m.pageNum, items, h1, ?_⟩
    rw [mem_matchesOfItems items 0 m]
    refine ⟨m.itemIndex, itm, h2, m.startOffset,
      (mem_findAll hqlow m.startOffset).mpr h3, ?_⟩
    cases m with
    | mk pg it off ln =>
      simp only at hlen ⊢
      rw [hlen]
      congr 1
      omega

/-- C3 witness: in the spec example the match inside "bathed" on page 2 is
exactly characterised as a genuine occurrence at offset 2 with the
query's length. -/
theorem search_matches_characterization_witness :
    isOccurrence [Char.ofNat 116, Char.ofNat 104, Char.ofNat 101]
      [(1, [[Char.ofNat 84, Char.ofNat 104, Char.ofNat 101, Char.ofNat 32,
             Char.ofNat 99, Char.ofNat 97, Char.ofNat 116],
            [Char.ofNat 116, Char.ofNat 104, Char.ofNat 101, Char.ofNat 32,
             Char.ofNat 109, Char.ofNat 97, Char.ofNat 116]]),
       (2, [[Char.ofNat 98, Char.ofNat 97, Char.ofNat 116, Char.ofNat 104,
             Char.ofNat 101, Char.ofNat 100]])]
      ⟨2, 0, 2, 3⟩ :=
  (search_matches_characterization
      [Char.ofNat 116, Char.ofNat 104, Char.ofNat 101]
      [(1, [[Char.ofNat 84, Char.ofNat 104, Char.ofNat 101, Char.ofNat 32,
             Char.ofNat 99, Char.ofNat 97, Char.ofNat 116],
            [Char.ofNat 116, Char.ofNat 104, Char.ofNat 101, Char.ofNat 32,
             Char.ofNat 109, Char.ofNat 97, Char.ofNat 116]]),
       (2, [[Char.ofNat 98, Char.ofNat 97, Char.ofNat 116, Char.ofNat 104,
             Char.ofNat 101, Char.ofNat 100]])]
      ⟨2, 0, 2, 3⟩ (by decide)).mp (by decide)

/-- C10 witness: a concrete mixed sequence stays in the set, and the
inverse/order-four laws hold at rotation 90. -/
theorem rotation_spec_witness :
    RotVals (applyRots [RotOp.left, RotOp.left, RotOp.right, RotOp.left] 0) ∧
    rotateLeftVal (rotateRightVal 90) = 90 ∧
    rotateRightVal (rotateLeftVal 90) = 90 ∧
    applyRots [RotOp.right, RotOp.right, RotOp.right, RotOp.right] 90 = 90 ∧
    applyRots [RotOp.left, RotOp.left, RotOp.left, RotOp.left] 90 = 90 := by
  refine ⟨rotation_spec.1 [RotOp.left, RotOp.left, RotOp.right, RotOp.left],
    (rotation_spec.2.1 90 (by decide)).1,
    (rotation_spec.2.1 90 (by decide)).2,
    (rotation_spec.2.2 90 (by decide)).1,
    (rotation_spec.2.2 90 (by decide)).2⟩

end PdfViewer
